import Mathlib

/-!
Verification development for the `KS` Kuramoto-Sivashinsky ETDRK4 solver
(`kuramoto.py`).  The solver's numpy arrays of complex floats are embedded as
`List C` over an arbitrary field `C` (exact arithmetic in place of IEEE
doubles); the external collaborators (the DFT pair, `exp`, `cos`, `sin`,
`np.real`, the random initial condition, and the `complex64` downcast applied
when a row is stored into the time-series buffer `vv`) are fields of an
environment record `Env`, since the spec treats them as external collaborators.
Fallible Python code is embedded with `Option`/`Except`: `none`/`.error` marks
an uncaught exception, and the fallible ETDRK4 step (which may raise
`FloatingPointError` under `np.seterr(over='raise', invalid='raise')`) is a
parameter `stepF : List C → Option (List C)` of the `simulate` loop, `none`
meaning the step raised.
-/

/-- External collaborators of the solver: `pi`, the imaginary unit `I`,
`exp`, `real part`, `cos`, `sin` (scalar functions of numpy), the DFT pair
`fft`/`ifft` (scipy.fftpack), the `complex64` downcast `cast` applied on
storing into `vv`, and the random generator `urand` behind
`np.random.rand(N)` (value at each index). -/
structure Env (C : Type*) where
  pi : C
  I : C
  expF : C → C
  reF : C → C
  cosF : C → C
  sinF : C → C
  fftF : List C → List C
  ifftF : List C → List C
  cast : C → C
  urand : ℕ → C

/-- The solver object: one field per attribute assigned by `KS.__init__`,
`IC`, `setup_timeseries`, `setup_fourier` and `setup_etdrk4` in
`kuramoto.py`.  `uu` is `Option`-valued because the attribute does not exist
until `fou2real` first assigns it.  Python ints holding sizes/strides are
`ℤ` (they may be negative); the counters `stepnum`/`ioutnum` only ever grow
from 0 and are `ℕ`. -/
structure KS (C : Type*) where
  L : C
  N : ℤ
  dx : C
  dt : C
  nsteps : ℤ
  iout : ℤ
  nout : ℤ
  tend : C
  u0 : List C
  v0 : List C
  v : List C
  t : C
  stepnum : ℕ
  ioutnum : ℕ
  vv : List (List C)
  tt : List C
  x : List C
  k : List C
  l : List C
  E : List C
  E2 : List C
  M : ℕ
  r : List C
  LR : List (List C)
  Q : List C
  f1 : List C
  f2 : List C
  f3 : List C
  g : List C
  uu : Option (List (List C))

/-- Elementwise product of two numpy arrays. -/
def emul {C : Type*} [Field C] (xs ys : List C) : List C :=
  List.zipWith (· * ·) xs ys

/-- Elementwise sum of two numpy arrays. -/
def eadd {C : Type*} [Field C] (xs ys : List C) : List C :=
  List.zipWith (· + ·) xs ys

/-- Elementwise difference of two numpy arrays. -/
def esub {C : Type*} [Field C] (xs ys : List C) : List C :=
  List.zipWith (· - ·) xs ys

/-- Scalar times a numpy array. -/
def smulL {C : Type*} [Field C] (c : C) (xs : List C) : List C :=
  xs.map (fun y => c * y)

/-- Python `int(a/b)` on two ints: true division truncated toward zero
(used by `self.nout = int(nsteps/iout)`).  The caller guards `b ≠ 0`. -/
def truncDiv (a b : ℤ) : ℤ :=
  if 0 ≤ a * b then ((a.natAbs / b.natAbs : ℕ) : ℤ)
  else -((a.natAbs / b.natAbs : ℕ) : ℤ)

/-- In-place `np.ndarray.resize` on the leading axis: shrinking keeps the
first `n` entries, growing pads with `pad` (zeros in numpy). -/
def pyResize {α : Type*} (xs : List α) (n : ℕ) (pad : α) : List α :=
  xs.take n ++ List.replicate (n - xs.length) pad

/-- Lines 190-193 / 208-211 of `kuramoto.py`:
`self.ioutnum += 1; self.vv[self.ioutnum,:] = self.v; self.tt[self.ioutnum] = self.t`.
The row store downcasts to `complex64` (`env.cast`).  `none` models the
uncaught `IndexError`/broadcast error when the index is out of range or
`v` does not have the row width `N`. -/
def record {C : Type*} [Field C] (env : Env C) (s : KS C) : Option (KS C) :=
  let i := s.ioutnum + 1
  if i < s.vv.length ∧ i < s.tt.length ∧ s.v.length = s.N.toNat then
    some { s with ioutnum := i,
                  vv := s.vv.set i (s.v.map env.cast),
                  tt := s.tt.set i s.t }
  else none

/-- The `except FloatingPointError` handler of `simulate` (lines 186-188 and
204-206): `self.nout = self.ioutnum`, then both `vv` and `tt` are resized in
place to `nout+1` leading entries. -/
def blowupTrunc {C : Type*} [Field C] (s : KS C) : KS C :=
  { s with nout := (s.ioutnum : ℤ),
           vv := pyResize s.vv (s.ioutnum + 1) (List.replicate s.N.toNat 0),
           tt := pyResize s.tt (s.ioutnum + 1) 0 }

/-- The common tail of `KS.IC`: save `u0`, `v0`, reset `v`, `t`, `stepnum`,
`ioutnum` (lines 133-138). -/
def icSet {C : Type*} [Field C] (s : KS C) (u v : List C) : KS C :=
  { s with u0 := u, v0 := v, v := v, t := 0, stepnum := 0, ioutnum := 0 }

/-- `KS.IC(u0, v0, testing)` (lines 97-138).  Result `some (code, s')`:
`code = some (-1)` is the `return -1` of the wrong-size branches (state
untouched), `code = none` the normal fall-through return.  `none` models the
uncaught `ValueError` of `np.random.rand(N)` for negative `N`. -/
def KS.IC {C : Type*} [Field C] (env : Env C) (s : KS C)
    (u0 v0 : Option (List C)) (testing : Bool) :
    Option (Option ℤ × KS C) :=
  match v0 with
  | none =>
    match u0 with
    | none =>
      if testing then
        let u := s.x.map (fun xi => env.cosF (xi / s.L) * (1 + env.sinF (xi / s.L)))
        some (none, icSet s u (env.fftF u))
      else
        if s.N < 0 then none
        else
          let u := (List.range s.N.toNat).map env.urand
          some (none, icSet s u (env.fftF u))
    | some u =>
      if (u.length : ℤ) ≠ s.N then some (some (-1), s)
      else some (none, icSet s u (env.fftF u))
  | some w =>
    if (w.length : ℤ) ≠ s.N then some (some (-1), s)
    else some (none, icSet s (env.ifftF w) w)

/-- `KS.setup_timeseries(nout)` (lines 56-65): allocate `vv` as `nout+1`
complex64 rows of width `N` and `tt` as `nout+1` zeros, storing the downcast
initial condition in row 0.  `none` models the uncaught numpy errors when
`nout+1 ≤ 0` (negative-dimension `ValueError`, or `IndexError` at
`vv[0,:] = v0`) or when `v0` does not have width `N`. -/
def KS.setup_timeseries {C : Type*} [Field C] (env : Env C) (s : KS C)
    (noutArg : Option ℤ) : Option (KS C) :=
  let nout := match noutArg with | none => s.nout | some n => n
  if 0 ≤ nout ∧ s.v0.length = s.N.toNat then
    some { s with nout := nout,
                  vv := (s.v0.map env.cast) ::
                        List.replicate nout.toNat (List.replicate s.N.toNat 0),
                  tt := (0 : C) :: List.replicate nout.toNat 0 }
  else none

/-- The wavenumber array `np.r_[0:N/2, 0, -N/2+1:0]/L` of `setup_fourier`
(line 70), written out for the even `N` the solver is used with (powers of
two per the spec): `0, 1, ..., N/2-1, 0, -N/2+1, ..., -1`, all divided
by `L`. -/
def kList {C : Type*} [Field C] (n : ℕ) (L : C) : List C :=
  (((List.range (n / 2)).map (fun j => ((j : ℤ) : C)))
    ++ [(0 : C)]
    ++ ((List.range (n / 2 - 1)).map
          (fun j => (((j : ℤ) - ((n / 2 : ℕ) : ℤ) + 1 : ℤ) : C)))).map
    (fun y => y / L)

/-- `KS.setup_fourier()` (lines 68-81), default-coefficients branch
(`coeffs is None`, the only branch the claims touch): positions `x`,
wavenumbers `k`, and the canonical multiplier `l = k² - k⁴`.  `none` models
the uncaught `FloatingPointError` (invalid 0/0, raised by
`np.seterr(invalid='raise')`) that the division `k/L` produces when
`L = 0`. -/
def KS.setup_fourier {C : Type*} [Field C] [DecidableEq C] (env : Env C)
    (s : KS C) : Option (KS C) :=
  if s.L = 0 then none
  else
    let k := kList s.N.toNat s.L
    some { s with
      x := (List.range s.N.toNat).map
             (fun j => 2 * env.pi * s.L * ((j : ℤ) : C) / ((s.N : ℤ) : C)),
      k := k,
      l := k.map (fun kj => kj ^ 2 - kj ^ 4) }

/-- `KS.setup_etdrk4()` (lines 84-94), transcribed term by term:
`E = exp(dt*l)`, `E2 = exp(dt*l/2)`, `M = 16`, the contour points
`r = exp(1j*pi*(np.r_[1:M+1]-0.5)/M)`, the matrix `LR[j,m] = dt*l[j] + r[m]`,
the four contour means `Q`, `f1`, `f2`, `f3` (each `dt` times the real part
of the row mean, i.e. the row sum divided by 16), and `g = -0.5j*k`. -/
def KS.setup_etdrk4 {C : Type*} [Field C] (env : Env C) (s : KS C) : KS C :=
  let E := s.l.map (fun lj => env.expF (s.dt * lj))
  let E2 := s.l.map (fun lj => env.expF (s.dt * lj / 2))
  let r := (List.range' 1 16).map
    (fun m => env.expF (env.I * env.pi * (((m : ℤ) : C) - 1/2) / 16))
  let LR := s.l.map (fun lj => r.map (fun rm => s.dt * lj + rm))
  let Q := LR.map (fun row =>
    s.dt * env.reF ((row.map (fun z => (env.expF (z / 2) - 1) / z)).sum / 16))
  let f1 := LR.map (fun row =>
    s.dt * env.reF ((row.map (fun z =>
      (-4 - z + env.expF z * (4 - 3 * z + z ^ 2)) / z ^ 3)).sum / 16))
  let f2 := LR.map (fun row =>
    s.dt * env.reF ((row.map (fun z =>
      (2 + z + env.expF z * (-2 + z)) / z ^ 3)).sum / 16))
  let f3 := LR.map (fun row =>
    s.dt * env.reF ((row.map (fun z =>
      (-4 - 3 * z - z ^ 2 + env.expF z * (4 - z)) / z ^ 3)).sum / 16))
  let g := s.k.map (fun kj => -(1/2) * env.I * kj)
  { s with E := E, E2 := E2, M := 16, r := r, LR := LR,
           Q := Q, f1 := f1, f2 := f2, f3 := f3, g := g }

/-- The nonlinear term `self.g*fft(np.real(ifft(x))**2)` that `KS.step`
forms four times (lines 147-150). -/
def KS.nonlin {C : Type*} [Field C] (env : Env C) (g x : List C) : List C :=
  emul g (env.fftF (((env.ifftF x).map env.reF).map (fun y => y ^ 2)))

/-- The new state vector computed by `KS.step` (lines 147-152), transcribed
with the source's operand order:
`v = E*v + Nv*f1 + 2*(Na + Nb)*f2 + Nc*f3`. -/
def KS.stepV {C : Type*} [Field C] (env : Env C) (s : KS C) : List C :=
  let v := s.v
  let Nv := KS.nonlin env s.g v
  let a := eadd (emul s.E2 v) (emul s.Q Nv)
  let Na := KS.nonlin env s.g a
  let b := eadd (emul s.E2 v) (emul s.Q Na)
  let Nb := KS.nonlin env s.g b
  let c := eadd (emul s.E2 a) (emul s.Q (esub (smulL 2 Nb) Nv))
  let Nc := KS.nonlin env s.g c
  eadd (eadd (eadd (emul s.E v) (emul Nv s.f1))
             (emul (smulL 2 (eadd Na Nb)) s.f2))
       (emul Nc s.f3)

/-- `KS.step()` (lines 141-154): the ETDRK4 update of `v`, then
`self.stepnum += 1; self.t += self.dt`. -/
def KS.step {C : Type*} [Field C] (env : Env C) (s : KS C) : KS C :=
  { s with v := KS.stepV env s, stepnum := s.stepnum + 1, t := s.t + s.dt }

/-- Terminal state of a `simulate` run: the Python method returns `None`
after a completed loop and `-1` from the `FloatingPointError` handler. -/
inductive SimOutcome (C : Type*) where
  | completed : KS C → SimOutcome C
  | diverged : KS C → SimOutcome C

/-- The value `simulate` returns to the caller: `None` on completion,
`-1` on divergence. -/
def SimOutcome.retval {C : Type*} : SimOutcome C → Option ℤ
  | .completed _ => none
  | .diverged _ => some (-1)

/-- The `for n in range(1, self.nsteps+1)` loop of `simulate` without a
correction (lines 179-193).  `stepF` is the fallible ETDRK4 update of `v`
(`none` = `FloatingPointError` raised mid-step, before `self.v`, `stepnum`,
`t` were written); on success the loop applies the step's unconditional
`stepnum`/`t` increments and, every `iout`-th step (`iout > 0`), records the
state.  Outer `none` models an uncaught exception inside `record`. -/
def runLoopNoCorr {C : Type*} [Field C] (env : Env C)
    (stepF : List C → Option (List C)) :
    ℕ → ℕ → KS C → Option (SimOutcome C)
  | 0, _, s => some (.completed s)
  | rem + 1, n, s =>
    match stepF s.v with
    | none => some (.diverged (blowupTrunc s))
    | some v2 =>
      let s1 : KS C := { s with v := v2, stepnum := s.stepnum + 1, t := s.t + s.dt }
      if 0 < s1.iout ∧ (n : ℤ) % s1.iout = 0 then
        match record env s1 with
        | none => none
        | some s2 => runLoopNoCorr env stepF rem (n + 1) s2
      else runLoopNoCorr env stepF rem (n + 1) s1

/-- The duplicated loop of `simulate` with a correction (lines 196-211):
identical to `runLoopNoCorr` except for `self.v += correction` after the
step.  The elementwise `+=` requires matching shapes; a mismatch is the
uncaught broadcast `ValueError` (`none`). -/
def runLoopCorr {C : Type*} [Field C] (env : Env C)
    (stepF : List C → Option (List C)) (corr : List C) :
    ℕ → ℕ → KS C → Option (SimOutcome C)
  | 0, _, s => some (.completed s)
  | rem + 1, n, s =>
    match stepF s.v with
    | none => some (.diverged (blowupTrunc s))
    | some v2 =>
      if corr.length = v2.length then
        let s1 : KS C := { s with v := List.zipWith (· + ·) v2 corr,
                                  stepnum := s.stepnum + 1, t := s.t + s.dt }
        if 0 < s1.iout ∧ (n : ℤ) % s1.iout = 0 then
          match record env s1 with
          | none => none
          | some s2 => runLoopCorr env stepF corr rem (n + 1) s2
        else runLoopCorr env stepF corr rem (n + 1) s1
      else none

/-- `KS.fou2real()` (lines 216-219): `self.uu = np.real(ifft(self.vv))`,
the row-wise inverse transform with the real part taken elementwise. -/
def KS.fou2real {C : Type*} [Field C] (env : Env C) (s : KS C) : KS C :=
  { s with uu := some (s.vv.map (fun row => (env.ifftF row).map env.reF)) }

/-- The argument handling of `simulate` (lines 157-175): overriding
`self.nsteps`/`self.iout` from the arguments and, on `restart`, recomputing
`nout = int(nsteps/iout)` (an uncaught `ZeroDivisionError` when `iout = 0`)
and resetting the time-series buffers. -/
def simulatePre {C : Type*} [Field C] (env : Env C) (s0 : KS C)
    (nstepsArg ioutArg : Option ℤ) (restart : Bool) : Option (KS C) :=
  let s1 := match nstepsArg with | none => s0 | some ns => { s0 with nsteps := ns }
  let s2 := match ioutArg with | none => s1 | some io => { s1 with iout := io }
  if restart then
    if s2.iout = 0 then none
    else KS.setup_timeseries env { s2 with nout := truncDiv s2.nsteps s2.iout } none
  else some s2

/-- The dispatch `if (correction==[])` of `simulate` (line 178): for a plain
list argument this is exactly the emptiness test, selecting one of the two
specialized loops. -/
def simulateRun {C : Type*} [Field C] (env : Env C)
    (stepF : List C → Option (List C)) (corr : List C) (s : KS C) :
    Option (SimOutcome C) :=
  match corr with
  | [] => runLoopNoCorr env stepF s.nsteps.toNat 1 s
  | _ => runLoopCorr env stepF corr s.nsteps.toNat 1 s

/-- The tail of `simulate`: a completed loop falls through to
`self.fou2real()` (line 213); the divergence handler returned `-1` already,
skipping it. -/
def simulatePost {C : Type*} [Field C] (env : Env C) :
    Option (SimOutcome C) → Option (SimOutcome C)
  | some (.completed s) => some (.completed (KS.fou2real env s))
  | some (.diverged s) => some (.diverged s)
  | none => none

/-- `KS.simulate(nsteps, iout, restart, correction)` (lines 157-213). -/
def KS.simulate {C : Type*} [Field C] (env : Env C)
    (stepF : List C → Option (List C)) (s0 : KS C)
    (nstepsArg ioutArg : Option ℤ) (restart : Bool) (correction : List C) :
    Option (SimOutcome C) :=
  match simulatePre env s0 nstepsArg ioutArg restart with
  | none => none
  | some s3 => simulatePost env (simulateRun env stepF correction s3)

/-- The exceptions `KS.__init__` can die with (it has no validation of its
own): `ZeroDivisionError` (`dx = 2*pi*L/N` with `N = 0`, or
`nout = int(nsteps/iout)` with `iout = 0`), numpy `ValueError`/`IndexError`
(negative or empty array dimensions), and `FloatingPointError` (the invalid
`0/0` in `k/L` when `L = 0`). -/
inductive PyErr where
  | zeroDivisionCrash : PyErr
  | valueCrash : PyErr
  | fpInvalidCrash : PyErr
  deriving DecidableEq

/-- `KS.__init__(L, N, dt, nsteps, iout)` (lines 23-53) with `nsteps` given
explicitly (the claims' path; the `tend`-derived branch
`nsteps = int(tend/dt)` is not modelled).  In source order: the derived
values `dx`, `tend`, `nout`; then `IC()` (random initial condition),
`setup_timeseries()`, `setup_fourier()`, `setup_etdrk4()`.  Attributes not
yet assigned are placeholder `[]`/`0`/`none`; each is overwritten by the
setup pass that owns it.  There is no validation anywhere: every `.error`
is an uncaught low-level exception, not a rejection. -/
def KS.init {C : Type*} [Field C] [DecidableEq C] (env : Env C)
    (L dt : C) (N nsteps iout : ℤ) : Except PyErr (KS C) :=
  if N = 0 then .error .zeroDivisionCrash
  else if iout = 0 then .error .zeroDivisionCrash
  else
    match KS.IC env
      { L := L, N := N, dx := 2 * env.pi * L / ((N : ℤ) : C), dt := dt,
        nsteps := nsteps, iout := iout, nout := truncDiv nsteps iout,
        tend := dt * ((nsteps : ℤ) : C),
        u0 := [], v0 := [], v := [], t := 0, stepnum := 0, ioutnum := 0,
        vv := [], tt := [], x := [], k := [], l := [],
        E := [], E2 := [], M := 0, r := [], LR := [],
        Q := [], f1 := [], f2 := [], f3 := [], g := [], uu := none }
      none none false with
    | none => .error .valueCrash
    | some (_, s1) =>
      match KS.setup_timeseries env s1 none with
      | none => .error .valueCrash
      | some s2 =>
        match KS.setup_fourier env s2 with
        | none => .error .fpInvalidCrash
        | some s3 => .ok (KS.setup_etdrk4 env s3)

/-- Whether an `Except` is a success. -/
def exceptOk {ε α : Type*} : Except ε α → Bool
  | .ok _ => true
  | .error _ => false

/-- The buffer invariant of the spec: `vv.rows == tt.length == nout+1` and
`ioutnum` never exceeding `nout`. -/
abbrev SizeInv {C : Type*} (s : KS C) : Prop :=
  (s.vv.length : ℤ) = s.nout + 1 ∧ (s.tt.length : ℤ) = s.nout + 1 ∧
    (s.ioutnum : ℤ) ≤ s.nout

/-- The spec's `square-nonlinearity(x) = g ⊙ DFT(Re(IDFT(x))²)`, written
from the claim's words (to be compared with `KS.nonlin`). -/
def specSqNonlin {C : Type*} [Field C] (env : Env C) (g x : List C) : List C :=
  emul g (env.fftF (((env.ifftF x).map env.reF).map (fun y => y ^ 2)))

/-- The four-stage ETDRK4 update exactly as the claim states it:
`Nv = square-nonlinearity(v)`, `a = E2⊙v + Q⊙Nv`, `b = E2⊙v + Q⊙Na`,
`c = E2⊙a + Q⊙(2·Nb − Nv)`, new state
`E⊙v + f1⊙Nv + 2·f2⊙(Na+Nb) + f3⊙Nc` (claim-text operand order, to be
compared with `KS.stepV`). -/
def specStepUpdate {C : Type*} [Field C] (env : Env C) (s : KS C) : List C :=
  let v := s.v
  let Nv := specSqNonlin env s.g v
  let a := eadd (emul s.E2 v) (emul s.Q Nv)
  let Na := specSqNonlin env s.g a
  let b := eadd (emul s.E2 v) (emul s.Q Na)
  let Nb := specSqNonlin env s.g b
  let c := eadd (emul s.E2 a) (emul s.Q (esub (smulL 2 Nb) Nv))
  let Nc := specSqNonlin env s.g c
  eadd (eadd (eadd (emul s.E v) (emul s.f1 Nv))
             (emul (smulL 2 s.f2) (eadd Na Nb)))
       (emul s.f3 Nc)

/-- The claim's contour points `r_m = exp(iπ(m−0.5)/16)`, `m = 1..16`
(to be compared with the array built in `KS.setup_etdrk4`). -/
def specR {C : Type*} [Field C] (env : Env C) : List C :=
  (List.range' 1 16).map
    (fun m => env.expF (env.I * env.pi * (((m : ℤ) : C) - 1/2) / 16))

/-- Claim: `E[j] = exp(dt*l[j])`. -/
def specE {C : Type*} [Field C] (env : Env C) (dt : C) (l : List C) : List C :=
  l.map (fun lj => env.expF (dt * lj))

/-- Claim: `E2[j] = exp(dt*l[j]/2)`. -/
def specE2 {C : Type*} [Field C] (env : Env C) (dt : C) (l : List C) : List C :=
  l.map (fun lj => env.expF (dt * lj / 2))

/-- Claim: `g[j] = -i*k[j]/2`. -/
def specG {C : Type*} [Field C] (env : Env C) (k : List C) : List C :=
  k.map (fun kj => -(env.I * kj) / 2)

/-- Claim: `Q[j] = dt·Re(mean_m((exp((dt·l[j]+r_m)/2) − 1)/(dt·l[j]+r_m)))`
over the 16 contour points. -/
def specQ {C : Type*} [Field C] (env : Env C) (dt : C) (l : List C) : List C :=
  l.map (fun lj =>
    dt * env.reF (((specR env).map
      (fun rm => (env.expF ((dt * lj + rm) / 2) - 1) / (dt * lj + rm))).sum / 16))

/-- Claim: `f1[j] = dt·Re(mean_m((−4 − z + e^z(4 − 3z + z²))/z³))` at
`z = dt·l[j] + r_m`. -/
def specf1 {C : Type*} [Field C] (env : Env C) (dt : C) (l : List C) : List C :=
  l.map (fun lj =>
    dt * env.reF (((specR env).map (fun rm =>
      (-4 - (dt * lj + rm)
        + env.expF (dt * lj + rm)
          * (4 - 3 * (dt * lj + rm) + (dt * lj + rm) ^ 2))
        / (dt * lj + rm) ^ 3)).sum / 16))

/-- Claim: `f2[j] = dt·Re(mean_m((2 + z + e^z(−2 + z))/z³))` at
`z = dt·l[j] + r_m`. -/
def specf2 {C : Type*} [Field C] (env : Env C) (dt : C) (l : List C) : List C :=
  l.map (fun lj =>
    dt * env.reF (((specR env).map (fun rm =>
      (2 + (dt * lj + rm)
        + env.expF (dt * lj + rm) * (-2 + (dt * lj + rm)))
        / (dt * lj + rm) ^ 3)).sum / 16))

/-- Claim: `f3[j] = dt·Re(mean_m((−4 − 3z − z² + e^z(4 − z))/z³))` at
`z = dt·l[j] + r_m`. -/
def specf3 {C : Type*} [Field C] (env : Env C) (dt : C) (l : List C) : List C :=
  l.map (fun lj =>
    dt * env.reF (((specR env).map (fun rm =>
      (-4 - 3 * (dt * lj + rm) - (dt * lj + rm) ^ 2
        + env.expF (dt * lj + rm) * (4 - (dt * lj + rm)))
        / (dt * lj + rm) ^ 3)).sum / 16))

/-- Powers of two in `ℚ` with an integer exponent. -/
def qpow2 (e : ℤ) : ℚ :=
  if 0 ≤ e then ((2 ^ e.toNat : ℕ) : ℚ) else 1 / ((2 ^ (-e).toNat : ℕ) : ℚ)

/-- Raise the exponent estimate while `qpow2 (e+1) ≤ x` (bounded fuel). -/
def qlog2up (x : ℚ) : ℕ → ℤ → ℤ
  | 0, e => e
  | fuel + 1, e => if qpow2 (e + 1) ≤ x then qlog2up x fuel (e + 1) else e

/-- Lower the exponent estimate while `x < qpow2 e` (bounded fuel). -/
def qlog2down (x : ℚ) : ℕ → ℤ → ℤ
  | 0, e => e
  | fuel + 1, e => if x < qpow2 e then qlog2down x fuel (e - 1) else e

/-- Floor of the base-2 logarithm of a positive rational, by bounded search:
the fuel `1100` covers the whole IEEE-754 double exponent range
(`2^-1074` to `2^1024`), which is all a downcast from `complex128` can
meet. -/
def qlog2 (x : ℚ) : ℤ :=
  qlog2down x 1100 (qlog2up x 1100 0)

/-- Round a rational to the nearest integer, ties to even (the IEEE-754
default rounding). -/
def rhte (y : ℚ) : ℤ :=
  if y - (⌊y⌋ : ℚ) < 1/2 then ⌊y⌋
  else if 1/2 < y - (⌊y⌋ : ℚ) then ⌊y⌋ + 1
  else if ⌊y⌋ % 2 = 0 then ⌊y⌋ else ⌊y⌋ + 1

/-- Round a positive rational to the 24-bit binary32 significand grid. -/
def roundF32pos (x : ℚ) : ℚ :=
  ((rhte (x / qpow2 (qlog2 x - 23)) : ℤ) : ℚ) * qpow2 (qlog2 x - 23)

/-- The componentwise rounding of the `complex64` downcast that storing
into `self.vv` (dtype `np.complex64`) performs on each double-precision real
and imaginary part: IEEE binary32 round-to-nearest-even, modelled over `ℚ`.
Exponent-range saturation (overflow/subnormals) is omitted; the values used
in this development lie in the normal range. -/
def roundF32 (x : ℚ) : ℚ :=
  if x = 0 then 0
  else if 0 < x then roundF32pos x
  else -(roundF32pos (-x))

/-- A concrete collaborator assignment over `ℚ` used by the witnesses:
identity transforms and scalar functions, zero constants.  (The theorems are
proved for every `Env`; this instance only makes them evaluable.) -/
def env0 : Env ℚ :=
  { pi := 0, I := 0, expF := id, reF := id, cosF := id, sinF := id,
    fftF := id, ifftF := id, cast := id, urand := fun _ => 0 }

/-- A concrete solver state over `ℚ` with `N = 2`, `nsteps = 3`, `iout = 1`,
`nout = 3`, freshly initialized buffers (`vv`/`tt` of length `nout+1`,
initial condition in row 0). -/
def state0 : KS ℚ :=
  { L := 16, N := 2, dx := 1, dt := 1, nsteps := 3, iout := 1, nout := 3,
    tend := 3, u0 := [1, 0], v0 := [1, 0], v := [1, 0], t := 0,
    stepnum := 0, ioutnum := 0,
    vv := [[1, 0], [0, 0], [0, 0], [0, 0]], tt := [0, 0, 0, 0],
    x := [0, 1], k := [0, 1], l := [0, 0],
    E := [1, 1], E2 := [1, 1], M := 16, r := [], LR := [],
    Q := [0, 0], f1 := [0, 0], f2 := [0, 0], f3 := [0, 0], g := [0, 0],
    uu := none }

/-- A step action that raises `FloatingPointError` at once (blow-up on the
first step). -/
def stepFail : List ℚ → Option (List ℚ) := fun _ => none

/-- A step action that always succeeds and keeps the state vector. -/
def stepOk : List ℚ → Option (List ℚ) := fun v => some v

/-- A step action that always succeeds with a fixed length-2 vector. -/
def stepTwo : List ℚ → Option (List ℚ) := fun _ => some [3, 3]

/-- `state0` with sampling disabled (`iout = 0`). -/
def stateI0 : KS ℚ :=
  { state0 with iout := 0 }

/-- The state after two recording-free loop iterations from `stateI0`. -/
def endI0 : KS ℚ :=
  match runLoopNoCorr env0 stepOk 2 1 stateI0 with
  | some (.completed s) => s
  | _ => stateI0

/-- The state `record` produces from `state0`. -/
def recState0 : KS ℚ :=
  match record env0 state0 with
  | some s => s
  | none => state0

/-- The final state of a completed `simulate` run from `state0`. -/
def endC9 : KS ℚ :=
  match KS.simulate env0 stepOk state0 none none false [] with
  | some (.completed s) => s
  | _ => state0

/-- The state `setup_timeseries` produces from `state0`. -/
def tsState0 : KS ℚ :=
  match KS.setup_timeseries env0 state0 none with
  | some s => s
  | none => state0

theorem emul_comm {C : Type*} [Field C] (xs : List C) :
    ∀ ys : List C, emul xs ys = emul ys xs := by
  induction xs with
  | nil => intro ys; cases ys <;> rfl
  | cons x xs ih =>
    intro ys
    cases ys with
    | nil => rfl
    | cons y ys =>
      show (x * y) :: emul xs ys = (y * x) :: emul ys xs
      rw [mul_comm, ih]

theorem emul_smulL_swap {C : Type*} [Field C] (c : C) (xs : List C) :
    ∀ ys : List C, emul (smulL c xs) ys = emul (smulL c ys) xs := by
  induction xs with
  | nil => intro ys; cases ys <;> rfl
  | cons x xs ih =>
    intro ys
    cases ys with
    | nil => rfl
    | cons y ys =>
      show (c * x * y) :: emul (smulL c xs) ys = (c * y * x) :: emul (smulL c ys) xs
      rw [ih]
      congr 1
      ring

theorem stepCombo {C : Type*} [Field C] (E v f1 f2 f3 Nv Na Nb Nc : List C) :
    eadd (eadd (eadd (emul E v) (emul Nv f1))
               (emul (smulL 2 (eadd Na Nb)) f2))
         (emul Nc f3)
    = eadd (eadd (eadd (emul E v) (emul f1 Nv))
                 (emul (smulL 2 f2) (eadd Na Nb)))
           (emul f3 Nc) := by
  rw [emul_comm Nv f1, emul_comm Nc f3, emul_smulL_swap]

/-- C1.  One call to `step` performs exactly the four-stage ETDRK4 update of
the claim: with `square-nonlinearity(x) = g ⊙ DFT(Re(IDFT(x))²)` it forms
`Nv`, the stages `a`, `b`, `c` and their nonlinear terms, replaces the state
vector by `E⊙v + f1⊙Nv + 2·f2⊙(Na+Nb) + f3⊙Nc`, increments the step counter
by 1 and advances `t` by `dt`, touching nothing else. -/
theorem step_matches_spec {C : Type*} [Field C] (env : Env C) (s : KS C) :
    KS.step env s
      = { s with v := specStepUpdate env s,
                 stepnum := s.stepnum + 1, t := s.t + s.dt } := by
  have h : KS.stepV env s = specStepUpdate env s := by
    unfold KS.stepV specStepUpdate
    simp only [KS.nonlin, specSqNonlin]
    exact stepCombo _ _ _ _ _ _ _ _ _
  unfold KS.step
  rw [h]

/-- C2.  The ETDRK4 coefficient setup produces exactly the claim's values:
`E = exp(dt·l)`, `E2 = exp(dt·l/2)`, `g = -i·k/2`, and `Q`, `f1`, `f2`, `f3`
equal to `dt` times the real part of the mean over exactly `M = 16` contour
points `r_m = exp(iπ(m-0.5)/16)`, `m = 1..16`, of the four stated
rational-exponential expressions evaluated at `z = dt·l[j] + r_m`. -/
theorem etdrk4_coeffs_match_spec {C : Type*} [Field C] (env : Env C) (s : KS C) :
    (KS.setup_etdrk4 env s).E = specE env s.dt s.l ∧
    (KS.setup_etdrk4 env s).E2 = specE2 env s.dt s.l ∧
    (KS.setup_etdrk4 env s).g = specG env s.k ∧
    (KS.setup_etdrk4 env s).r = specR env ∧
    (KS.setup_etdrk4 env s).M = 16 ∧
    (KS.setup_etdrk4 env s).Q = specQ env s.dt s.l ∧
    (KS.setup_etdrk4 env s).f1 = specf1 env s.dt s.l ∧
    (KS.setup_etdrk4 env s).f2 = specf2 env s.dt s.l ∧
    (KS.setup_etdrk4 env s).f3 = specf3 env s.dt s.l := by
  refine ⟨rfl, rfl, ?_, rfl, rfl, ?_, ?_, ?_, ?_⟩
  · show s.k.map (fun kj => -(1/2) * env.I * kj) = specG env s.k
    unfold specG
    refine List.map_congr_left (fun kj _ => ?_)
    ring
  · show ((s.l.map (fun lj => (specR env).map (fun rm => s.dt * lj + rm))).map
      (fun row =>
        s.dt * env.reF ((row.map (fun z => (env.expF (z / 2) - 1) / z)).sum / 16)))
      = specQ env s.dt s.l
    unfold specQ
    rw [List.map_map]
    refine List.map_congr_left (fun lj _ => ?_)
    simp only [Function.comp_apply, List.map_map]
    rfl
  · show ((s.l.map (fun lj => (specR env).map (fun rm => s.dt * lj + rm))).map
      (fun row =>
        s.dt * env.reF ((row.map (fun z =>
          (-4 - z + env.expF z * (4 - 3 * z + z ^ 2)) / z ^ 3)).sum / 16)))
      = specf1 env s.dt s.l
    unfold specf1
    rw [List.map_map]
    refine List.map_congr_left (fun lj _ => ?_)
    simp only [Function.comp_apply, List.map_map]
    rfl
  · show ((s.l.map (fun lj => (specR env).map (fun rm => s.dt * lj + rm))).map
      (fun row =>
        s.dt * env.reF ((row.map (fun z =>
          (2 + z + env.expF z * (-2 + z)) / z ^ 3)).sum / 16)))
      = specf2 env s.dt s.l
    unfold specf2
    rw [List.map_map]
    refine List.map_congr_left (fun lj _ => ?_)
    simp only [Function.comp_apply, List.map_map]
    rfl
  · show ((s.l.map (fun lj => (specR env).map (fun rm => s.dt * lj + rm))).map
      (fun row =>
        s.dt * env.reF ((row.map (fun z =>
          (-4 - 3 * z - z ^ 2 + env.expF z * (4 - z)) / z ^ 3)).sum / 16)))
      = specf3 env s.dt s.l
    unfold specf3
    rw [List.map_map]
    refine List.map_congr_left (fun lj _ => ?_)
    simp only [Function.comp_apply, List.map_map]
    rfl

/-- C7.  Supplying an initial-condition vector (physical `u0` or spectral
`v0`) whose length differs from `N` makes `IC` return the error code `-1`
with the solver state unchanged (no field is modified, no truncation or
padding happens, no run starts). -/
theorem ic_wrong_length_rejected {C : Type*} [Field C] (env : Env C)
    (s : KS C) (u w : List C) (testing : Bool)
    (hu : (u.length : ℤ) ≠ s.N) (hw : (w.length : ℤ) ≠ s.N) :
    KS.IC env s (some u) none testing = some (some (-1), s) ∧
    KS.IC env s none (some w) testing = some (some (-1), s) := by
  constructor
  · show (if (u.length : ℤ) ≠ s.N then some (some (-1), s)
          else some (none, icSet s u (env.fftF u))) = some (some (-1), s)
    rw [if_pos hu]
  · show (if (w.length : ℤ) ≠ s.N then some (some (-1), s)
          else some (none, icSet s (env.ifftF w) w)) = some (some (-1), s)
    rw [if_pos hw]

/-- Witness for C7: a length-1 vector against `N = 2`. -/
theorem ic_wrong_length_rejected_witness :
    KS.IC env0 state0 (some [1]) none false = some (some (-1), state0) ∧
    KS.IC env0 state0 none (some [1]) false = some (some (-1), state0) :=
  ic_wrong_length_rejected env0 state0 [1] [1] false (by decide) (by decide)

theorem truncDiv_nonneg {a b : ℤ} (ha : 0 ≤ a) (hb : 0 < b) :
    0 ≤ truncDiv a b := by
  unfold truncDiv
  rw [if_pos (mul_nonneg ha hb.le)]
  exact Int.natCast_nonneg _

theorem IC_default {C : Type*} [Field C] (env : Env C) (s : KS C)
    (h : 0 ≤ s.N) :
    KS.IC env s none none false
      = some (none, icSet s ((List.range s.N.toNat).map env.urand)
          (env.fftF ((List.range s.N.toNat).map env.urand))) := by
  show (if s.N < 0 then none
        else some (none, icSet s ((List.range s.N.toNat).map env.urand)
          (env.fftF ((List.range s.N.toNat).map env.urand))))
      = _
  rw [if_neg (by omega)]

theorem setup_timeseries_ok {C : Type*} [Field C] (env : Env C) (s : KS C)
    (h0 : 0 ≤ s.nout) (hv : s.v0.length = s.N.toNat) :
    KS.setup_timeseries env s none
      = some { s with nout := s.nout,
                      vv := (s.v0.map env.cast) ::
                            List.replicate s.nout.toNat (List.replicate s.N.toNat 0),
                      tt := (0 : C) :: List.replicate s.nout.toNat 0 } := by
  show (if 0 ≤ s.nout ∧ s.v0.length = s.N.toNat then _ else none) = _
  rw [if_pos ⟨h0, hv⟩]

theorem setup_fourier_ok {C : Type*} [Field C] [DecidableEq C] (env : Env C)
    (s : KS C) (h : s.L ≠ 0) :
    KS.setup_fourier env s
      = some { s with
          x := (List.range s.N.toNat).map
                 (fun j => 2 * env.pi * s.L * ((j : ℤ) : C) / ((s.N : ℤ) : C)),
          k := kList s.N.toNat s.L,
          l := (kList s.N.toNat s.L).map (fun kj => kj ^ 2 - kj ^ 4) } := by
  show (if s.L = 0 then none else _) = _
  rw [if_neg h]

/-- C4 (amended).  The constructor performs no validation at all: for any
`L ≠ 0` and any `dt` whatsoever (in particular non-positive ones), any
`N > 0`, `nsteps ≥ 0` and `iout > 0`, construction succeeds and stores the
inputs unchanged — nothing is rejected with a configuration error.  (`L = 0`,
`N ≤ 0`, `iout = 0` and negative `nsteps` die with incidental low-level
exceptions — `ZeroDivisionError`, numpy dimension errors, a floating-point
invalid — never with a validation error.) -/
theorem init_no_validation {C : Type*} [Field C] [DecidableEq C]
    (env : Env C) (L dt : C) (N nsteps iout : ℤ)
    (hfft : ∀ xs : List C, (env.fftF xs).length = xs.length)
    (hL : L ≠ 0) (hN : 0 < N) (hns : 0 ≤ nsteps) (hio : 0 < iout) :
    ∃ s : KS C, KS.init env L dt N nsteps iout = .ok s ∧
      s.L = L ∧ s.dt = dt ∧ s.N = N ∧ s.nsteps = nsteps ∧ s.iout = iout := by
  unfold KS.init
  rw [if_neg (by omega : ¬N = 0), if_neg (by omega : ¬iout = 0)]
  rw [IC_default env _ (by exact hN.le)]
  dsimp only
  rw [setup_timeseries_ok env _ (truncDiv_nonneg hns hio)
        (by simp only [icSet, hfft, List.length_map, List.length_range])]
  dsimp only
  rw [setup_fourier_ok env _ hL]
  dsimp only
  exact ⟨_, rfl, rfl, rfl, rfl, rfl, rfl⟩

/-- Witness for C4's amended claim: `L = -1`, `dt = -1` are accepted. -/
theorem init_no_validation_witness :
    (KS.init env0 (-1 : ℚ) (-1 : ℚ) 2 4 1).toOption.isSome = true := by
  obtain ⟨s, hs, -⟩ :=
    init_no_validation env0 (-1 : ℚ) (-1 : ℚ) 2 4 1 (fun xs => rfl)
      (by norm_num) (by decide) (by decide) (by decide)
  rw [hs]
  rfl

/-- Counterexample to C4 as stated: the non-positive domain length `L = -1`
is not rejected — construction succeeds. -/
theorem init_accepts_nonpositive_L :
    exceptOk (KS.init env0 (-1 : ℚ) (1/4 : ℚ) 2 4 1) = true := by
  rfl

theorem loopNoCorr_iout0_aux {C : Type*} [Field C] (env : Env C)
    (stepF : List C → Option (List C)) :
    ∀ (rem n : ℕ) (s s' : KS C), s.iout = 0 →
      runLoopNoCorr env stepF rem n s = some (.completed s') →
      s'.vv = s.vv ∧ s'.tt = s.tt ∧ s'.ioutnum = s.ioutnum := by
  intro rem
  induction rem with
  | zero =>
    intro n s s' h0 h
    simp only [runLoopNoCorr] at h
    injection h with h
    injection h with h
    subst h
    exact ⟨rfl, rfl, rfl⟩
  | succ k ih =>
    intro n s s' h0 h
    simp only [runLoopNoCorr] at h
    cases hstep : stepF s.v with
    | none => rw [hstep] at h; simp at h
    | some v2 =>
      rw [hstep] at h
      dsimp only at h
      rw [if_neg (by simp [h0])] at h
      have hres := ih (n + 1) _ s' (by exact h0) h
      exact hres

/-- C5 (bug in the code).  The spec declares `iout = 0` valid (sampling
disabled), and the sampling guard `iout > 0` in the simulate loop indeed
never records with `iout = 0` (second conjunct) — but construction with
`iout = 0` dies in an uncaught `ZeroDivisionError` at
`self.nout = int(nsteps/iout)` instead of succeeding (first conjunct). -/
theorem iout_zero_division_bug :
    KS.init env0 16 (1/4 : ℚ) 128 10 0 = .error .zeroDivisionCrash ∧
    (∀ (C : Type) (_inst : Field C) (env : Env C)
        (stepF : List C → Option (List C)) (rem n : ℕ) (s s' : KS C),
      s.iout = 0 →
      runLoopNoCorr env stepF rem n s = some (.completed s') →
      s'.vv = s.vv ∧ s'.tt = s.tt ∧ s'.ioutnum = s.ioutnum) := by
  constructor
  · rfl
  · intro C _inst env stepF rem n s s' h0 h
    exact loopNoCorr_iout0_aux env stepF rem n s s' h0 h

/-- Witness for C5: the division-by-zero at construction evaluates on the
concrete input, and a 2-step recording-free loop from `stateI0`
(`iout = 0`) leaves the buffers and sample counter untouched. -/
theorem iout_zero_division_bug_witness :
    endI0.vv = stateI0.vv ∧ endI0.tt = stateI0.tt ∧
      endI0.ioutnum = stateI0.ioutnum :=
  iout_zero_division_bug.2 ℚ inferInstance env0 stepOk 2 1 stateI0 endI0
    rfl rfl

theorem pyResize_length {α : Type*} (xs : List α) (n : ℕ) (pad : α) :
    (pyResize xs n pad).length = n := by
  unfold pyResize
  simp only [List.length_append, List.length_take, List.length_replicate]
  omega

/-- C6.  The spec's buffer invariant at each of its checkpoints: (1) after a
(re)initialization of the time series the freshly built buffers satisfy
`vv.rows = tt.length = nout+1 ≥ ioutnum+1`; (2) recording a sample preserves
the invariant (in particular `ioutnum` stays within `nout`); (3) blow-up
truncation re-establishes the invariant with the truncated `nout` and only
ever shrinks the two containers, never grows them. -/
theorem buffer_size_invariants {C : Type*} [Field C] (env : Env C) :
    (∀ (s s' : KS C) (na : Option ℤ), s.ioutnum = 0 →
       KS.setup_timeseries env s na = some s' → SizeInv s') ∧
    (∀ s s' : KS C, SizeInv s → record env s = some s' → SizeInv s') ∧
    (∀ s : KS C, SizeInv s →
       SizeInv (blowupTrunc s) ∧ (blowupTrunc s).vv.length ≤ s.vv.length ∧
         (blowupTrunc s).tt.length ≤ s.tt.length) := by
  refine ⟨?_, ?_, ?_⟩
  · intro s s' na h0 h
    unfold KS.setup_timeseries at h
    rcases na with _ | n
    · dsimp only at h
      by_cases hc : 0 ≤ s.nout ∧ s.v0.length = s.N.toNat
      · rw [if_pos hc] at h
        injection h with h
        subst h
        refine ⟨?_, ?_, ?_⟩ <;>
          simp [List.length_replicate, h0] <;> omega
      · rw [if_neg hc] at h
        exact absurd h (by simp)
    · dsimp only at h
      by_cases hc : 0 ≤ n ∧ s.v0.length = s.N.toNat
      · rw [if_pos hc] at h
        injection h with h
        subst h
        refine ⟨?_, ?_, ?_⟩ <;>
          simp [List.length_replicate, h0] <;> omega
      · rw [if_neg hc] at h
        exact absurd h (by simp)
  · intro s s' hs h
    unfold record at h
    dsimp only at h
    by_cases hc : s.ioutnum + 1 < s.vv.length ∧ s.ioutnum + 1 < s.tt.length ∧
        s.v.length = s.N.toNat
    · rw [if_pos hc] at h
      injection h with h
      subst h
      obtain ⟨h1, h2, h3⟩ := hs
      obtain ⟨c1, c2, c3⟩ := hc
      refine ⟨?_, ?_, ?_⟩ <;> simp [List.length_set] <;> omega
    · rw [if_neg hc] at h
      exact absurd h (by simp)
  · intro s hs
    obtain ⟨h1, h2, h3⟩ := hs
    have lv : (blowupTrunc s).vv.length = s.ioutnum + 1 := pyResize_length _ _ _
    have lt2 : (blowupTrunc s).tt.length = s.ioutnum + 1 := pyResize_length _ _ _
    refine ⟨⟨?_, ?_, ?_⟩, ?_, ?_⟩
    · rw [lv]; show ((s.ioutnum + 1 : ℕ) : ℤ) = (s.ioutnum : ℤ) + 1; omega
    · rw [lt2]; show ((s.ioutnum + 1 : ℕ) : ℤ) = (s.ioutnum : ℤ) + 1; omega
    · show (s.ioutnum : ℤ) ≤ (s.ioutnum : ℤ); omega
    · rw [lv]; omega
    · rw [lt2]; omega

/-- Witness for C6: the three invariant facts evaluated at `state0` (a
consistently sized post-initialization state): after a fresh
`setup_timeseries`, after one `record`, and after a blow-up truncation. -/
theorem buffer_size_invariants_witness :
    SizeInv tsState0 ∧ SizeInv recState0 ∧ SizeInv (blowupTrunc state0) :=
  ⟨(buffer_size_invariants env0).1 state0 tsState0 none rfl rfl,
   (buffer_size_invariants env0).2.1 state0 recState0 (by decide) rfl,
   ((buffer_size_invariants env0).2.2 state0 (by decide)).1⟩

theorem blowupTrunc_shape {C : Type*} [Field C] (s : KS C) :
    (blowupTrunc s).nout = ((blowupTrunc s).ioutnum : ℤ) ∧
    (blowupTrunc s).vv.length = (blowupTrunc s).ioutnum + 1 ∧
    (blowupTrunc s).tt.length = (blowupTrunc s).ioutnum + 1 :=
  ⟨rfl, pyResize_length _ _ _, pyResize_length _ _ _⟩

theorem loopNoCorr_diverged_aux {C : Type*} [Field C] (env : Env C)
    (stepF : List C → Option (List C)) :
    ∀ (rem n : ℕ) (s s' : KS C),
      runLoopNoCorr env stepF rem n s = some (.diverged s') →
      ∃ m : KS C, s' = blowupTrunc m := by
  intro rem
  induction rem with
  | zero =>
    intro n s s' h
    simp only [runLoopNoCorr] at h
    simp at h
  | succ k ih =>
    intro n s s' h
    simp only [runLoopNoCorr] at h
    cases hstep : stepF s.v with
    | none =>
      rw [hstep] at h
      dsimp only at h
      injection h with h
      injection h with h
      exact ⟨s, h.symm⟩
    | some v2 =>
      rw [hstep] at h
      dsimp only at h
      by_cases hio : 0 < s.iout ∧ (n : ℤ) % s.iout = 0
      · rw [if_pos (by exact hio)] at h
        cases hrec : record env { s with v := v2, stepnum := s.stepnum + 1,
                                         t := s.t + s.dt } with
        | none => rw [hrec] at h; exact absurd h (by simp)
        | some s2 =>
          rw [hrec] at h
          dsimp only at h
          exact ih (n + 1) s2 s' h
      · rw [if_neg (by exact hio)] at h
        exact ih (n + 1) _ s' h

theorem loopCorr_diverged_aux {C : Type*} [Field C] (env : Env C)
    (stepF : List C → Option (List C)) (corr : List C) :
    ∀ (rem n : ℕ) (s s' : KS C),
      runLoopCorr env stepF corr rem n s = some (.diverged s') →
      ∃ m : KS C, s' = blowupTrunc m := by
  intro rem
  induction rem with
  | zero =>
    intro n s s' h
    simp only [runLoopCorr] at h
    simp at h
  | succ k ih =>
    intro n s s' h
    simp only [runLoopCorr] at h
    cases hstep : stepF s.v with
    | none =>
      rw [hstep] at h
      dsimp only at h
      injection h with h
      injection h with h
      exact ⟨s, h.symm⟩
    | some v2 =>
      rw [hstep] at h
      dsimp only at h
      by_cases hlen : corr.length = v2.length
      · rw [if_pos hlen] at h
        by_cases hio : 0 < s.iout ∧ (n : ℤ) % s.iout = 0
        · rw [if_pos (by exact hio)] at h
          cases hrec : record env { s with v := List.zipWith (· + ·) v2 corr,
                                           stepnum := s.stepnum + 1,
                                           t := s.t + s.dt } with
          | none => rw [hrec] at h; exact absurd h (by simp)
          | some s2 =>
            rw [hrec] at h
            dsimp only at h
            exact ih (n + 1) s2 s' h
        · rw [if_neg (by exact hio)] at h
          exact ih (n + 1) _ s' h
      · rw [if_neg hlen] at h
        exact absurd h (by simp)

/-- C3.  Whenever a run diverges (the fallible step raised
`FloatingPointError`), `simulate` stops at once with the `diverged` status:
the final state has `nout` set to the sample index `ioutnum`, both `vv` and
`tt` truncated to exactly `ioutnum + 1` entries, and the value handed back
to the caller is the non-fatal `-1` — no exception propagates (a crash is a
different result constructor entirely). -/
theorem simulate_divergence_truncates {C : Type*} [Field C] (env : Env C)
    (stepF : List C → Option (List C)) (s0 s' : KS C) (nA iA : Option ℤ)
    (restart : Bool) (corr : List C)
    (hdiv : KS.simulate env stepF s0 nA iA restart corr
              = some (.diverged s')) :
    s'.nout = (s'.ioutnum : ℤ) ∧
    s'.vv.length = s'.ioutnum + 1 ∧ s'.tt.length = s'.ioutnum + 1 ∧
    SimOutcome.retval (SimOutcome.diverged s') = some (-1) := by
  unfold KS.simulate at hdiv
  cases hpre : simulatePre env s0 nA iA restart with
  | none => rw [hpre] at hdiv; exact absurd hdiv (by simp)
  | some s3 =>
    rw [hpre] at hdiv
    dsimp only at hdiv
    cases hrun : simulateRun env stepF corr s3 with
    | none => rw [hrun] at hdiv; exact absurd hdiv (by simp [simulatePost])
    | some out =>
      rw [hrun] at hdiv
      cases out with
      | completed s4 => simp [simulatePost] at hdiv
      | diverged s4 =>
        have h4 : s4 = s' := by simpa [simulatePost] using hdiv
        subst h4
        obtain ⟨m, hm⟩ : ∃ m : KS C, s4 = blowupTrunc m := by
          unfold simulateRun at hrun
          cases corr with
          | nil => exact loopNoCorr_diverged_aux env stepF _ _ _ _ hrun
          | cons c cs => exact loopCorr_diverged_aux env stepF (c :: cs) _ _ _ _ hrun
        subst hm
        exact ⟨(blowupTrunc_shape m).1, (blowupTrunc_shape m).2.1,
               (blowupTrunc_shape m).2.2, rfl⟩

/-- Witness for C3: a run from `state0` whose first step blows up. -/
theorem simulate_divergence_truncates_witness :
    (blowupTrunc state0).nout = ((blowupTrunc state0).ioutnum : ℤ) ∧
    (blowupTrunc state0).vv.length = (blowupTrunc state0).ioutnum + 1 ∧
    (blowupTrunc state0).tt.length = (blowupTrunc state0).ioutnum + 1 ∧
    SimOutcome.retval (SimOutcome.diverged (blowupTrunc state0))
      = some (-1) :=
  simulate_divergence_truncates env0 stepFail state0 (blowupTrunc state0)
    none none false [] rfl

theorem record_uu {C : Type*} [Field C] (env : Env C) {s s' : KS C}
    (h : record env s = some s') : s'.uu = s.uu := by
  unfold record at h
  dsimp only at h
  by_cases hc : s.ioutnum + 1 < s.vv.length ∧ s.ioutnum + 1 < s.tt.length ∧
      s.v.length = s.N.toNat
  · rw [if_pos hc] at h
    injection h with h
    subst h
    rfl
  · rw [if_neg hc] at h
    exact absurd h (by simp)

theorem setup_timeseries_uu {C : Type*} [Field C] (env : Env C)
    {s s' : KS C} {na : Option ℤ}
    (h : KS.setup_timeseries env s na = some s') : s'.uu = s.uu := by
  unfold KS.setup_timeseries at h
  rcases na with _ | n <;> dsimp only at h
  · by_cases hc : 0 ≤ s.nout ∧ s.v0.length = s.N.toNat
    · rw [if_pos hc] at h; injection h with h; subst h; rfl
    · rw [if_neg hc] at h; exact absurd h (by simp)
  · by_cases hc : 0 ≤ n ∧ s.v0.length = s.N.toNat
    · rw [if_pos hc] at h; injection h with h; subst h; rfl
    · rw [if_neg hc] at h; exact absurd h (by simp)

theorem loopNoCorr_diverged_uu {C : Type*} [Field C] (env : Env C)
    (stepF : List C → Option (List C)) :
    ∀ (rem n : ℕ) (s s' : KS C),
      runLoopNoCorr env stepF rem n s = some (.diverged s') →
      s'.uu = s.uu := by
  intro rem
  induction rem with
  | zero =>
    intro n s s' h
    simp only [runLoopNoCorr] at h
    simp at h
  | succ k ih =>
    intro n s s' h
    simp only [runLoopNoCorr] at h
    cases hstep : stepF s.v with
    | none =>
      rw [hstep] at h
      dsimp only at h
      injection h with h
      injection h with h
      rw [← h]
      rfl
    | some v2 =>
      rw [hstep] at h
      dsimp only at h
      by_cases hio : 0 < s.iout ∧ (n : ℤ) % s.iout = 0
      · rw [if_pos (by exact hio)] at h
        cases hrec : record env { s with v := v2, stepnum := s.stepnum + 1,
                                         t := s.t + s.dt } with
        | none => rw [hrec] at h; exact absurd h (by simp)
        | some s2 =>
          rw [hrec] at h
          dsimp only at h
          rw [ih (n + 1) s2 s' h, record_uu env hrec]
      · rw [if_neg (by exact hio)] at h
        have hres := ih (n + 1) _ s' h
        exact hres

theorem loopCorr_diverged_uu {C : Type*} [Field C] (env : Env C)
    (stepF : List C → Option (List C)) (corr : List C) :
    ∀ (rem n : ℕ) (s s' : KS C),
      runLoopCorr env stepF corr rem n s = some (.diverged s') →
      s'.uu = s.uu := by
  intro rem
  induction rem with
  | zero =>
    intro n s s' h
    simp only [runLoopCorr] at h
    simp at h
  | succ k ih =>
    intro n s s' h
    simp only [runLoopCorr] at h
    cases hstep : stepF s.v with
    | none =>
      rw [hstep] at h
      dsimp only at h
      injection h with h
      injection h with h
      rw [← h]
      rfl
    | some v2 =>
      rw [hstep] at h
      dsimp only at h
      by_cases hlen : corr.length = v2.length
      · rw [if_pos hlen] at h
        by_cases hio : 0 < s.iout ∧ (n : ℤ) % s.iout = 0
        · rw [if_pos (by exact hio)] at h
          cases hrec : record env { s with v := List.zipWith (· + ·) v2 corr,
                                           stepnum := s.stepnum + 1,
                                           t := s.t + s.dt } with
          | none => rw [hrec] at h; exact absurd h (by simp)
          | some s2 =>
            rw [hrec] at h
            dsimp only at h
            rw [ih (n + 1) s2 s' h, record_uu env hrec]
        · rw [if_neg (by exact hio)] at h
          have hres := ih (n + 1) _ s' h
          exact hres
      · rw [if_neg hlen] at h
        exact absurd h (by simp)

theorem simulatePre_uu {C : Type*} [Field C] (env : Env C) {s0 s3 : KS C}
    {nA iA : Option ℤ} {restart : Bool}
    (h : simulatePre env s0 nA iA restart = some s3) : s3.uu = s0.uu := by
  unfold simulatePre at h
  rcases nA with _ | ns <;> rcases iA with _ | io <;> dsimp only at h <;>
    cases restart
  all_goals
    try (rw [if_neg (by simp : ¬(false = true))] at h;
         injection h with h; subst h)
  all_goals try exact rfl
  all_goals rw [if_pos (rfl : (true : Bool) = true)] at h
  all_goals split at h
  all_goals
    first
    | exact absurd h (by simp)
    | rw [setup_timeseries_uu env h]

/-- C9 (amended).  The spectral-to-physical conversion runs only on a
completed run: then `uu` is exactly the elementwise real part of the
row-wise inverse transform of the recorded series `vv`.  A run truncated by
divergence returns `-1` immediately, skipping `fou2real`, so `uu` is left
exactly as it was before the run. -/
theorem fou2real_only_on_completion {C : Type*} [Field C] (env : Env C)
    (stepF : List C → Option (List C)) (s0 : KS C) (nA iA : Option ℤ)
    (restart : Bool) (corr : List C) :
    (∀ s' : KS C,
      KS.simulate env stepF s0 nA iA restart corr = some (.completed s') →
      s'.uu = some (s'.vv.map (fun row => (env.ifftF row).map env.reF))) ∧
    (∀ s' : KS C,
      KS.simulate env stepF s0 nA iA restart corr = some (.diverged s') →
      s'.uu = s0.uu) := by
  constructor
  · intro s' h
    unfold KS.simulate at h
    cases hpre : simulatePre env s0 nA iA restart with
    | none => rw [hpre] at h; exact absurd h (by simp)
    | some s3 =>
      rw [hpre] at h
      dsimp only at h
      cases hrun : simulateRun env stepF corr s3 with
      | none => rw [hrun] at h; exact absurd h (by simp [simulatePost])
      | some out =>
        rw [hrun] at h
        cases out with
        | diverged s4 => simp [simulatePost] at h
        | completed s4 =>
          have h4 : KS.fou2real env s4 = s' := by simpa [simulatePost] using h
          subst h4
          rfl
  · intro s' h
    unfold KS.simulate at h
    cases hpre : simulatePre env s0 nA iA restart with
    | none => rw [hpre] at h; exact absurd h (by simp)
    | some s3 =>
      rw [hpre] at h
      dsimp only at h
      cases hrun : simulateRun env stepF corr s3 with
      | none => rw [hrun] at h; exact absurd h (by simp [simulatePost])
      | some out =>
        rw [hrun] at h
        cases out with
        | completed s4 => simp [simulatePost] at h
        | diverged s4 =>
          have h4 : s4 = s' := by simpa [simulatePost] using h
          subst h4
          have huu3 : s4.uu = s3.uu := by
            unfold simulateRun at hrun
            cases corr with
            | nil => exact loopNoCorr_diverged_uu env stepF _ _ _ _ hrun
            | cons c cs =>
              exact loopCorr_diverged_uu env stepF (c :: cs) _ _ _ _ hrun
          rw [huu3, simulatePre_uu env hpre]

/-- Witness for C9's amended claim: a completed 3-step run from `state0`
ends with `uu` equal to the row-wise transform of `vv`. -/
theorem fou2real_only_on_completion_witness :
    endC9.uu = some (endC9.vv.map (fun row => (env0.ifftF row).map env0.reF)) :=
  (fou2real_only_on_completion env0 stepOk state0 none none false []).1
    endC9 rfl

/-- Counterexample to C9 as stated: on a run truncated by divergence the
conversion is NOT invoked — `simulate` returns `-1` before reaching
`fou2real`, and the final `uu` (still unset) differs from the row-wise
inverse transform of the truncated `vv`. -/
theorem fou2real_skipped_on_divergence :
    KS.simulate env0 stepFail state0 none none false []
        = some (.diverged (blowupTrunc state0)) ∧
    (blowupTrunc state0).uu
        ≠ some ((blowupTrunc state0).vv.map
            (fun row => (env0.ifftF row).map env0.reF)) :=
  ⟨rfl, by decide⟩

theorem zipWith_add_replicate_zero {C : Type*} [Field C] :
    ∀ (l : List C) (m : ℕ), l.length = m →
      List.zipWith (· + ·) l (List.replicate m 0) = l := by
  intro l
  induction l with
  | nil =>
    intro m h
    subst h
    rfl
  | cons x xs ih =>
    intro m h
    cases m with
    | zero => simp at h
    | succ k =>
      show (x + 0) :: List.zipWith (· + ·) xs (List.replicate k 0) = x :: xs
      rw [add_zero, ih k (by simpa using h)]

theorem corrLoop_zero_aux {C : Type*} [Field C] (env : Env C)
    (stepF : List C → Option (List C)) (m : ℕ)
    (hlen : ∀ v w, stepF v = some w → w.length = m) :
    ∀ (rem n : ℕ) (s : KS C),
      runLoopCorr env stepF (List.replicate m 0) rem n s
        = runLoopNoCorr env stepF rem n s := by
  intro rem
  induction rem with
  | zero => intro n s; rfl
  | succ k ih =>
    intro n s
    simp only [runLoopCorr, runLoopNoCorr]
    cases hstep : stepF s.v with
    | none => rfl
    | some v2 =>
      have hl := hlen _ _ hstep
      dsimp only
      rw [if_pos (by simp [hl]), zipWith_add_replicate_zero v2 m hl]
      by_cases hio : 0 < s.iout ∧ (n : ℤ) % s.iout = 0
      · rw [if_pos (by exact hio), if_pos (by exact hio)]
        cases hrec : record env { s with v := v2, stepnum := s.stepnum + 1,
                                         t := s.t + s.dt } with
        | none => rfl
        | some s2 => dsimp only; exact ih (n + 1) s2
      · rw [if_neg (by exact hio), if_neg (by exact hio)]
        exact ih (n + 1) _

/-- C8.  Supplying the length-`N` all-zeros correction vector produces
exactly the same `simulate` result — same final state, same recorded `vv`
and `tt`, same status — as omitting the correction argument entirely
(`correction = []` selects the no-correction loop), for every fallible step
whose successful results have length `N` (`m` here). -/
theorem zero_correction_identical {C : Type*} [Field C] (env : Env C)
    (stepF : List C → Option (List C)) (s0 : KS C) (nA iA : Option ℤ)
    (restart : Bool) (m : ℕ)
    (hlen : ∀ v w, stepF v = some w → w.length = m) :
    KS.simulate env stepF s0 nA iA restart (List.replicate m 0)
      = KS.simulate env stepF s0 nA iA restart [] := by
  unfold KS.simulate
  cases hpre : simulatePre env s0 nA iA restart with
  | none => rfl
  | some s3 =>
    dsimp only
    cases m with
    | zero => rfl
    | succ j =>
      show simulatePost env
          (runLoopCorr env stepF (List.replicate (j + 1) 0) s3.nsteps.toNat 1 s3)
        = simulatePost env (runLoopNoCorr env stepF s3.nsteps.toNat 1 s3)
      rw [corrLoop_zero_aux env stepF (j + 1) hlen]

/-- Witness for C8: a 3-step run of `stepTwo` (all results have length 2)
from `state0`, with the zero vector of length 2 versus no correction. -/
theorem zero_correction_identical_witness :
    KS.simulate env0 stepTwo state0 none none false (List.replicate 2 0)
      = KS.simulate env0 stepTwo state0 none none false [] :=
  zero_correction_identical env0 stepTwo state0 none none false 2
    (fun v w h => by
      simp only [stepTwo] at h
      injection h with h
      rw [← h]
      rfl)

theorem qlog2up_succ (x : ℚ) (fuel : ℕ) (e : ℤ) :
    qlog2up x (fuel + 1) e
      = if qpow2 (e + 1) ≤ x then qlog2up x fuel (e + 1) else e := rfl

theorem qlog2down_succ (x : ℚ) (fuel : ℕ) (e : ℤ) :
    qlog2down x (fuel + 1) e
      = if x < qpow2 e then qlog2down x fuel (e - 1) else e := rfl

theorem qlog2_one_ulp64 : qlog2 (1 + 1/2^24 : ℚ) = 0 := by
  have hup : qlog2up (1 + 1/2^24 : ℚ) 1100 0 = 0 := by
    rw [show (1100 : ℕ) = 1099 + 1 from rfl, qlog2up_succ,
        if_neg (by norm_num [qpow2])]
  have hdown : qlog2down (1 + 1/2^24 : ℚ) 1100 0 = 0 := by
    rw [show (1100 : ℕ) = 1099 + 1 from rfl, qlog2down_succ,
        if_neg (by norm_num [qpow2])]
  rw [qlog2, hup, hdown]

theorem roundF32_lossy : roundF32 (1 + 1/2^24) ≠ (1 + 1/2^24 : ℚ) := by
  have h1 : roundF32 (1 + 1/2^24 : ℚ) = roundF32pos (1 + 1/2^24 : ℚ) := by
    unfold roundF32
    rw [if_neg (by norm_num), if_pos (by norm_num)]
  have hscale : qpow2 (qlog2 (1 + 1/2^24 : ℚ) - 23) = 1/2^23 := by
    rw [qlog2_one_ulp64]
    norm_num [qpow2, show ((23 : ℤ)).toNat = 23 from rfl]
  have hdiv : (1 + 1/2^24 : ℚ) / (1/2^23) = 2^23 + 1/2 := by norm_num
  have hfl : ⌊(2^23 + 1/2 : ℚ)⌋ = 2^23 := by
    rw [Int.floor_eq_iff]
    norm_num
  have hrh : rhte (2^23 + 1/2 : ℚ) = 2^23 := by
    unfold rhte
    rw [hfl]
    norm_num
  have h2 : roundF32pos (1 + 1/2^24 : ℚ) = 1 := by
    unfold roundF32pos
    rw [hscale, hdiv, hrh]
    norm_num
  rw [h1, h2]
  norm_num

/-- C10.  Every snapshot the solver stores into `vv` — each recorded sample
and the initial condition in row 0 alike — is the `complex64` downcast
(`env.cast`) of the state vector at the moment of storing, and that downcast
is genuinely lossy: the binary32 rounding it applies to each component
already moves the double-representable value `1 + 2⁻²⁴` (so a recorded row
may differ from the in-memory state that produced it). -/
theorem recorded_rows_are_downcasts {C : Type*} [Field C] (env : Env C) :
    (∀ s s' : KS C, record env s = some s' →
        s'.vv[s'.ioutnum]? = some (s.v.map env.cast)) ∧
    (∀ (s s' : KS C) (na : Option ℤ),
        KS.setup_timeseries env s na = some s' →
        s'.vv[0]? = some (s.v0.map env.cast)) ∧
    roundF32 (1 + 1/2^24) ≠ (1 + 1/2^24 : ℚ) := by
  refine ⟨?_, ?_, roundF32_lossy⟩
  · intro s s' h
    unfold record at h
    dsimp only at h
    by_cases hc : s.ioutnum + 1 < s.vv.length ∧ s.ioutnum + 1 < s.tt.length ∧
        s.v.length = s.N.toNat
    · rw [if_pos hc] at h
      injection h with h
      subst h
      exact List.getElem?_set_eq_of_lt _ hc.1
    · rw [if_neg hc] at h
      exact absurd h (by simp)
  · intro s s' na h
    unfold KS.setup_timeseries at h
    rcases na with _ | n <;> dsimp only at h
    · by_cases hc : 0 ≤ s.nout ∧ s.v0.length = s.N.toNat
      · rw [if_pos hc] at h
        injection h with h
        subst h
        simp
      · rw [if_neg hc] at h
        exact absurd h (by simp)
    · by_cases hc : 0 ≤ n ∧ s.v0.length = s.N.toNat
      · rw [if_pos hc] at h
        injection h with h
        subst h
        simp
      · rw [if_neg hc] at h
        exact absurd h (by simp)

/-- Witness for C10: one `record` from `state0` stores the downcast of
`state0.v` at the new sample index. -/
theorem recorded_rows_are_downcasts_witness :
    recState0.vv[recState0.ioutnum]? = some (state0.v.map env0.cast) :=
  (recorded_rows_are_downcasts env0).1 state0 recState0 rfl
